import Mathlib

/-!
Shallow embedding of the csvc CSV reader (repository oleg578/csvc).

The repository contains several implementations of the record reader.  We
embed the three that the specification's claims are about:

* the streaming parser with line/column tracking, `ParseError`,
  `ErrBareQuote`, `ErrUnterminatedQuote` and the `finished` flag
  (src/unnamed/part_007, the section defining `ParseError` and
  `wrapError`) — modelled below as `bRead`;
* the buffered state-machine reader with `readRecord`, the quote-free fast
  path and `FieldCount` padding (src/unnamed/part_007, the section using
  `STATE_START_FIELD` …) — modelled below as `dRead`;
* the line-oriented reader of src/csvc.go with `readLine`, blank-line and
  comment skipping and `FieldsPerRecord` — modelled below as `csvcRead`.

Bytes are modelled as natural numbers (the byte's value); an input stream is
a `List Nat`.  The Go byte source (`bufio`/`readByte`/`peekByte`) is pure
here: reading a byte is taking the head of the remaining list, peeking looks
at the head without consuming, end of the list is `io.EOF`.
-/

namespace Csvc

/-- Byte list of an ASCII string (each character's code point, which for the
inputs used here equals the byte value). -/
def bytes (s : String) : List Nat := s.data.map Char.toNat

/-- Slice `l[s:e]` of a byte buffer, as in Go string slicing. -/
def sliceBy (l : List Nat) (s e : Nat) : List Nat := (l.drop s).take (e - s)

/-! ### The streaming parser (`Reader.Read` with `ParseError`, part_007) -/

/-- The two structural parse errors of the streaming parser
(`ErrBareQuote`, `ErrUnterminatedQuote`). -/
inductive BErr where
  | bareQuote
  | unterminatedQuote
deriving DecidableEq, Repr

/-- Persistent state of the streaming `Reader` between `Read` calls: the
remaining input of the byte source, the `finished` flag and the current
line number (`r.line`, starting at 1).  The column counter is a local of
`Read` in the source and is therefore not part of this state. -/
structure BState where
  input : List Nat
  finished : Bool
  line : Nat
deriving DecidableEq, Repr

/-- Result of one `Read` call: a record (list of fields, each a byte list),
`io.EOF`, or a `ParseError` carrying line, column and the error kind. -/
inductive BOutcome where
  | record : List (List Nat) → BOutcome
  | eofR : BOutcome
  | parseErr : Nat → Nat → BErr → BOutcome
deriving DecidableEq, Repr

/-- `buildRecord`: turn the accumulated data buffer and the field bounds
(start/end offset pairs) into the list of fields (`recordStr[start:end]`
for each pair).  `ReuseRecord` only changes allocation behaviour in the
source, not the field values, so it is not modelled. -/
def buildRecord (dataBuf : List Nat) (bounds : List (Nat × Nat)) : List (List Nat) :=
  bounds.map (fun p => sliceBy dataBuf p.1 p.2)

/-- The main loop of the streaming `Reader.Read` (part_007): one iteration
per `readByte`, with `peekByte` looking at the head of the rest.  Arguments
mirror the Go locals: `inQuotes`, `sawQuotedField`, `column`, `fieldStart`,
`r.dataBuf`, `r.fieldBounds`, `r.line`, and the remaining input. -/
def breadLoop (comma quote : Nat) (inQuotes sawQ : Bool) (column fieldStart : Nat)
    (dataBuf : List Nat) (bounds : List (Nat × Nat)) (line : Nat) :
    List Nat → BOutcome × BState
  | [] =>
      -- readByte returned io.EOF
      if inQuotes then
        (.parseErr line column .unterminatedQuote, ⟨[], true, line⟩)
      else if bounds ≠ [] ∨ dataBuf ≠ [] ∨ sawQ then
        (.record (buildRecord dataBuf (bounds ++ [(fieldStart, dataBuf.length)])),
          ⟨[], true, line⟩)
      else
        (.eofR, ⟨[], true, line⟩)
  | b :: rest =>
      if inQuotes then
        if b = quote then
          -- peekByte: an escaped quote is consumed, anything else (or EOF)
          -- closes the quoted section without consuming
          if rest.head? = some quote then
            breadLoop comma quote true sawQ (column + 2) fieldStart
              (dataBuf ++ [quote]) bounds line rest.tail
          else
            breadLoop comma quote false sawQ (column + 1) fieldStart
              dataBuf bounds line rest
        else if b = 10 then
          breadLoop comma quote true sawQ 1 fieldStart
            (dataBuf ++ [b]) bounds (line + 1) rest
        else
          breadLoop comma quote true sawQ (column + 1) fieldStart
            (dataBuf ++ [b]) bounds line rest
      else
        if b = comma then
          breadLoop comma quote false false (column + 1) dataBuf.length
            dataBuf (bounds ++ [(fieldStart, dataBuf.length)]) line rest
        else if b = 10 then
          (.record (buildRecord dataBuf (bounds ++ [(fieldStart, dataBuf.length)])),
            ⟨rest, false, line + 1⟩)
        else if b = 13 then
          -- peekByte: a following LF is consumed as part of the terminator
          if rest.head? = some 10 then
            (.record (buildRecord dataBuf (bounds ++ [(fieldStart, dataBuf.length)])),
              ⟨rest.tail, false, line + 1⟩)
          else
            (.record (buildRecord dataBuf (bounds ++ [(fieldStart, dataBuf.length)])),
              ⟨rest, false, line + 1⟩)
        else if b = quote then
          if dataBuf.length = fieldStart ∧ sawQ = false then
            breadLoop comma quote true true (column + 1) fieldStart
              dataBuf bounds line rest
          else
            (.parseErr line column .bareQuote, ⟨rest, false, line⟩)
        else
          breadLoop comma quote false sawQ (column + 1) fieldStart
            (dataBuf ++ [b]) bounds line rest
termination_by input => input.length
decreasing_by all_goals (simp_wf <;> omega)

/-- One call of the streaming `Reader.Read`.  `comma0`/`quote0` are the
`Comma`/`Quote` fields (value `0` selects the default, as in the source),
`st` the persistent reader state.  Returns the outcome and the new state. -/
def bRead (comma0 quote0 : Nat) (st : BState) : BOutcome × BState :=
  if st.finished then (.eofR, st)
  else
    breadLoop (if comma0 = 0 then 44 else comma0) (if quote0 = 0 then 34 else quote0)
      false false 1 0 [] [] st.line st.input

/-- Projection used for comparing outcomes by their fields only. -/
def recOf : BOutcome → Option (List (List Nat))
  | .record fs => some fs
  | _ => none

example :
    bRead 44 34 ⟨bytes "a,b\n", false, 1⟩ =
      (.record [bytes "a", bytes "b"], ⟨[], false, 2⟩) := by
  simp [bRead, breadLoop, buildRecord, sliceBy, bytes]

/-! ### The buffered state-machine reader (part_007, `STATE_START_FIELD` section)

`readRecord` accumulates whole physical lines (`bufio.ReadSlice`) until a
newline is seen while not inside a quoted field, then trims the trailing
CRLF/LF/CR; `Read` then parses the buffered record, with a quote-free fast
path and an RFC 4180 state machine otherwise, and applies the `FieldCount`
auto-detection and padding. -/

/-- The `insideQuoted` scan of `readRecord`: toggles on a quote, skipping
doubled (escaped) quotes.  Mirrors the loop over the freshly appended chunk;
the source rescans from `prevLen-1`, which in this pure model is always the
newline that ended the previous chunk and is therefore a no-op. -/
def scanQ : Bool → List Nat → Bool
  | q, [] => q
  | q, 34 :: 34 :: rest2 => if q then scanQ q rest2 else scanQ true (34 :: rest2)
  | q, 34 :: rest => if q then scanQ false rest else scanQ true rest
  | q, _ :: rest => scanQ q rest

/-- Trailing record-delimiter trim of `readRecord`: one LF, a CRLF, or one
bare CR. -/
def dTrim (l : List Nat) : List Nat :=
  if l.getLast? = some 10 then
    if l.dropLast.getLast? = some 13 then l.dropLast.dropLast else l.dropLast
  else if l.getLast? = some 13 then l.dropLast
  else l

/-- Auxiliary length bound used for termination of the line-consuming
loops. -/
theorem dropWhile_len_le (p : Nat → Bool) (l : List Nat) :
    (l.dropWhile p).length ≤ l.length := by
  induction l with
  | nil => simp
  | cons a t ih =>
    by_cases h : p a
    · simp [List.dropWhile, h]; omega
    · simp [List.dropWhile, h]

/-- Termination measure fact for the chunk-consuming loops. -/
theorem dropWhile_tail_lt (p : Nat → Bool) (x : Nat) (xs : List Nat) :
    (List.dropWhile p (x :: xs)).length - 1 < xs.length + 1 := by
  have h := dropWhile_len_le p (x :: xs)
  simp only [List.length_cons] at h
  omega

/-- The accumulation loop of `readRecord`: take the next chunk up to and
including a newline (`bufio.ReadSlice` with an unbounded buffer), update the
`insideQuoted` scan, and stop at a newline outside quotes or at end of
input.  Returns the raw accumulated buffer and the remaining input. -/
def dAccum (insideQ : Bool) (acc : List Nat) (input : List Nat) : List Nat × List Nat :=
  match input with
  | [] => (acc, [])
  | b :: r0 =>
    let pre := (b :: r0).takeWhile (fun c => !(c == 10))
    let post := (b :: r0).dropWhile (fun c => !(c == 10))
    if post.isEmpty then
      -- end of input with no newline: io.EOF, keep the accumulated data
      (acc ++ pre, [])
    else
      let chunk := pre ++ [10]
      let q2 := scanQ insideQ chunk
      if q2 then dAccum q2 (acc ++ chunk) post.tail
      else (acc ++ chunk, post.tail)
termination_by input.length
decreasing_by
  simp_wf
  exact dropWhile_tail_lt _ _ _

/-- `readRecord`: `io.EOF` when there is no data at all, otherwise the
delimiter-trimmed record buffer and the rest of the input. -/
def dReadRecord (input : List Nat) : Option (List Nat × List Nat) :=
  match input with
  | [] => none
  | _ :: _ =>
    let r := dAccum false [] input
    some (dTrim r.1, r.2)

/-- Field-boundary scan of the quote-free fast path: a `(start, end)` pair
per delimiter, plus the final field reaching the end of the buffer. -/
def dFastBounds (comma : Nat) (i start : Nat) (acc : List (Nat × Nat)) :
    List Nat → List (Nat × Nat)
  | [] => acc ++ [(start, i)]
  | c :: rest =>
      if c = comma then dFastBounds comma (i + 1) (i + 1) (acc ++ [(start, i)]) rest
      else dFastBounds comma (i + 1) start acc rest

/-- The four reachable states of the RFC 4180 machine (`STATE_END_FIELD` is
declared in the source but never entered). -/
inductive DState where
  | startField
  | unquoted
  | quoted
  | quoteInQuoted
deriving DecidableEq, Repr

/-- Result of running the state machine over the record buffer: final
state, the `lastWasComma` flag, `fieldStart` (`none` models the `-1`
sentinel), the output buffer and the collected field bounds. -/
structure DMachineRes where
  state : DState
  lastWasComma : Bool
  fieldStart : Option Nat
  out : List Nat
  bounds : List (Nat × Nat)
deriving DecidableEq, Repr

/-- The per-byte state machine of the quoted path.  The source's
`bytes.IndexByte` jump inside `STATE_QUOTED` copies the run up to the next
quote in one step; byte-by-byte appending yields the same output buffer,
bounds and states. -/
def dMachine (comma : Nat) (st : DState) (lwc : Bool) (fs : Option Nat)
    (out : List Nat) (bounds : List (Nat × Nat)) : List Nat → DMachineRes
  | [] => ⟨st, lwc, fs, out, bounds⟩
  | ch :: rest =>
    match st with
    | .startField =>
        if ch = 34 then
          dMachine comma .quoted false (some out.length) out bounds rest
        else if ch = comma then
          dMachine comma .startField true fs out
            (bounds ++ [(out.length, out.length)]) rest
        else
          dMachine comma .unquoted false (some out.length) (out ++ [ch]) bounds rest
    | .unquoted =>
        if ch = comma then
          dMachine comma .startField true none out
            (bounds ++ [(fs.getD 0, out.length)]) rest
        else
          dMachine comma .unquoted false fs (out ++ [ch]) bounds rest
    | .quoted =>
        if ch = 34 then
          dMachine comma .quoteInQuoted false fs out bounds rest
        else
          dMachine comma .quoted false fs (out ++ [ch]) bounds rest
    | .quoteInQuoted =>
        if ch = 34 then
          dMachine comma .quoted false fs (out ++ [34]) bounds rest
        else if ch = comma then
          dMachine comma .startField true none out
            (bounds ++ [(fs.getD 0, out.length)]) rest
        else
          dMachine comma .unquoted false (some out.length)
            (out ++ [ch]) (bounds ++ [(fs.getD 0, out.length)]) rest

/-- The last-field bookkeeping after the state-machine loop. -/
def dFinalize (m : DMachineRes) : List (Nat × Nat) :=
  if m.fieldStart ≠ none ∧
      (m.state = .quoted ∨ m.state = .quoteInQuoted ∨ m.state = .unquoted) then
    m.bounds ++ [(m.fieldStart.getD 0, m.out.length)]
  else if m.lastWasComma then m.bounds ++ [(m.out.length, m.out.length)]
  else m.bounds

/-- One call of the state-machine `Reader.Read`: `none` is `io.EOF`; else
the fields, together with the updated `FieldCount` and the remaining
input.  Short records are padded with empty fields up to `FieldCount`. -/
def dRead (comma : Nat) (fieldCount : Nat) (input : List Nat) :
    Option (List (List Nat)) × Nat × List Nat :=
  match dReadRecord input with
  | none => (none, fieldCount, [])
  | some (buf, rest) =>
    if buf.contains 34 then
      let m := dMachine comma .startField false none [] [] buf
      let bounds := dFinalize m
      let fields := bounds.map (fun p => sliceBy m.out p.1 p.2)
      let fc := if fieldCount = 0 then bounds.length else fieldCount
      let fields2 :=
        if bounds.length < fc then fields ++ List.replicate (fc - bounds.length) []
        else fields
      (some fields2, fc, rest)
    else
      let bounds := dFastBounds comma 0 0 [] buf
      let fields := bounds.map (fun p => sliceBy buf p.1 p.2)
      let fc := if fieldCount = 0 then bounds.length else fieldCount
      let fields2 :=
        if bounds.length < fc then fields ++ List.replicate (fc - bounds.length) []
        else fields
      (some fields2, fc, rest)

example :
    dRead 44 0 (bytes ",a,,b,\n") =
      (some [[], bytes "a", [], bytes "b", []], 5, []) := by
  simp [dRead, dReadRecord, dAccum, dTrim, dFastBounds, scanQ, sliceBy, bytes]

/-! ### The line-oriented reader (src/csvc.go)

`Read` fetches one physical line with `readLine` (built on
`bufio.Reader.ReadLine`, which strips a trailing LF or CRLF), replaces the
line by its `strings.TrimSpace`, skips it when it is empty or starts with
the comment character, scans field boundaries with an in-quotes flag,
appends the last field and — when the line ends with the delimiter — one
more empty field, strips surrounding quotes and collapses doubled quotes in
each field, and finally applies the `FieldsPerRecord` policy. -/

/-- Go's ASCII whitespace set used by `strings.TrimSpace`:
tab, LF, VT, FF, CR, space.  (The inputs considered here are ASCII.) -/
def isSpaceB (c : Nat) : Bool :=
  c == 9 || c == 10 || c == 11 || c == 12 || c == 13 || c == 32

/-- `strings.TrimSpace` on a byte list. -/
def trimSpace (l : List Nat) : List Nat :=
  ((l.dropWhile isSpaceB).reverse.dropWhile isSpaceB).reverse

/-- `bufio.Reader.ReadLine` drops a final CR only together with the LF; a
line at end of input without LF keeps a trailing CR. -/
def stripTrailCR (l : List Nat) : List Nat :=
  if l.getLast? = some 13 then l.dropLast else l

/-- `strings.ReplaceAll(field, two quote characters, one quote character)`:
left-to-right, non-overlapping. -/
def replacePairs : List Nat → List Nat
  | [] => []
  | 34 :: 34 :: rest => 34 :: replacePairs rest
  | c :: rest => c :: replacePairs rest

/-- The field-boundary scan of `csvc.go`'s `Read`: quote toggling with
escaped-pair skipping (`i++`), and a `(fieldStart, i)` bound at each
delimiter outside quotes.  Returns the bounds and the final `fieldStart`. -/
def cFindBounds (comma : Nat) (inQ : Bool) (i fieldStart : Nat)
    (acc : List (Nat × Nat)) : List Nat → List (Nat × Nat) × Nat
  | [] => (acc, fieldStart)
  | 34 :: 34 :: rest2 =>
      if inQ then cFindBounds comma true (i + 2) fieldStart acc rest2
      else cFindBounds comma true (i + 1) fieldStart acc (34 :: rest2)
  | 34 :: rest =>
      if inQ then cFindBounds comma false (i + 1) fieldStart acc rest
      else cFindBounds comma true (i + 1) fieldStart acc rest
  | c :: rest =>
      if c = comma ∧ inQ = false then
        cFindBounds comma inQ (i + 1) (i + 1) (acc ++ [(fieldStart, i)]) rest
      else cFindBounds comma inQ (i + 1) fieldStart acc rest

/-- Per-field decoding of `csvc.go`: strip surrounding quotes when the field
both starts and ends with one, then collapse doubled quotes. -/
def cDecodeField (f : List Nat) : List Nat :=
  if 2 ≤ f.length ∧ f.head? = some 34 ∧ f.getLast? = some 34 then
    replacePairs ((f.drop 1).dropLast)
  else f

/-- The per-line parse of `csvc.go`'s `Read` (after line trimming): field
bounds, the unconditional last field, the extra empty field for a line
ending with the delimiter, and field extraction. -/
def csvcParse (comma : Nat) (line : List Nat) : List (List Nat) :=
  let fb := cFindBounds comma false 0 0 [] line
  let bounds1 := if fb.2 ≤ line.length then fb.1 ++ [(fb.2, line.length)] else fb.1
  let bounds2 :=
    if 0 < line.length ∧ line.getLast? = some comma then
      bounds1 ++ [(line.length, line.length)]
    else bounds1
  bounds2.map (fun p => cDecodeField (sliceBy line p.1 p.2))

/-- Result of one `csvc.go` `Read` call: a record, `io.EOF`, or
`ErrFieldCount`. -/
inductive COutcome where
  | record : List (List Nat) → COutcome
  | eofR : COutcome
  | fieldCountErr : COutcome
deriving DecidableEq, Repr

/-- One call of `csvc.go`'s `Read`.  `fpr` is `FieldsPerRecord` (an integer:
positive enforces, zero auto-detects then enforces, negative disables),
`numLine` the reader's line counter.  Returns the outcome together with the
updated `FieldsPerRecord`, the updated line counter and the remaining
input. -/
def csvcRead (comma comment : Nat) (fpr : Int) (numLine : Nat) (input : List Nat) :
    COutcome × Int × Nat × List Nat :=
  match input with
  | [] => (.eofR, fpr, numLine, [])
  | b :: r0 =>
    let pre := (b :: r0).takeWhile (fun c => !(c == 10))
    let post := (b :: r0).dropWhile (fun c => !(c == 10))
    let line := if post.isEmpty then pre else stripTrailCR pre
    let rest := post.tail
    let lineT := trimSpace line
    if lineT.isEmpty ∨ (comment ≠ 0 ∧ lineT.head? = some comment) then
      csvcRead comma comment fpr (numLine + 1) rest
    else
      let fields := csvcParse comma lineT
      if 0 < fpr then
        if (fields.length : Int) = fpr then (.record fields, fpr, numLine + 1, rest)
        else (.fieldCountErr, fpr, numLine + 1, rest)
      else if fpr = 0 then (.record fields, (fields.length : Int), numLine + 1, rest)
      else (.record fields, fpr, numLine + 1, rest)
termination_by input.length
decreasing_by
  simp_wf
  exact dropWhile_tail_lt _ _ _

example :
    csvcRead 44 35 0 0 (bytes ",a,,b,\n") =
      (.record [[], bytes "a", [], bytes "b", [], []], 6, 1, []) := by
  simp [csvcRead, csvcParse, cFindBounds, cDecodeField, trimSpace, isSpaceB,
    stripTrailCR, replacePairs, sliceBy, bytes]

/-! ## Helper lemmas about the streaming parser -/

/-- Inside a quoted field, a newline-class byte (LF or CR) is appended to
the field data and the loop continues: it never terminates the record.
LF additionally advances the line counter and resets the column. -/
theorem breadLoop_quoted_newline (sawQ : Bool) (col fs : Nat) (buf : List Nat)
    (bds : List (Nat × Nat)) (line : Nat) (b : Nat) (rest : List Nat)
    (hb : b = 10 ∨ b = 13) :
    breadLoop 44 34 true sawQ col fs buf bds line (b :: rest) =
      breadLoop 44 34 true sawQ (if b = 10 then 1 else col + 1) fs (buf ++ [b]) bds
        (if b = 10 then line + 1 else line) rest := by
  rcases hb with h | h <;> subst h <;> simp [breadLoop]

/-- A `finished` reader immediately returns `io.EOF` and leaves its state
(including the remaining input) untouched. -/
theorem bRead_finished (c q : Nat) (st : BState) (h : st.finished = true) :
    bRead c q st = (.eofR, st) := by
  simp [bRead, h]

/-- `io.EOF` and `ErrUnterminatedQuote` results of the read loop always come
with the `finished` flag set in the resulting state. -/
theorem breadLoop_finish (c q : Nat) (iq sawQ : Bool) (col fs : Nat) (buf : List Nat)
    (bds : List (Nat × Nat)) (line : Nat) (input : List Nat) :
    ((breadLoop c q iq sawQ col fs buf bds line input).1 = .eofR ∨
      ∃ l2 c2, (breadLoop c q iq sawQ col fs buf bds line input).1 =
        .parseErr l2 c2 .unterminatedQuote) →
    (breadLoop c q iq sawQ col fs buf bds line input).2.finished = true := by
  induction iq, sawQ, col, fs, buf, bds, line, input using breadLoop.induct c q
  all_goals simp_all [breadLoop]
  all_goals (split <;> simp_all)

/-! ## Claim theorems -/

/-- C1 (counterexample): after reading the record
`field1,"line1\nline2",field3\n` the streaming parser's line counter is not
2 (it is 3: it starts at 1 and both the embedded newline and the record
terminator increment it). -/
theorem c1_line_counter_counterexample :
    ¬ ((bRead 44 34 ⟨bytes "field1,\"line1\nline2\",field3\n", false, 1⟩).2.line = 2) := by
  simp [bRead, breadLoop, buildRecord, sliceBy, bytes]

/-- C1 (amended): a single read of `field1,"line1\nline2",field3\n` returns
exactly the three fields `field1`, `line1\nline2` (newline preserved
verbatim) and `field3` as one record, with the line counter equal to 3
afterwards (1-based, incremented by the embedded newline and by the record
terminator); and a newline-class byte inside a quoted field never
terminates the record — it is appended verbatim and the loop continues. -/
theorem c1_multiline_quoted_field :
    bRead 44 34 ⟨bytes "field1,\"line1\nline2\",field3\n", false, 1⟩ =
      (.record [bytes "field1", bytes "line1\nline2", bytes "field3"], ⟨[], false, 3⟩) ∧
    ∀ (sawQ : Bool) (col fs : Nat) (buf : List Nat) (bds : List (Nat × Nat))
      (line b : Nat) (rest : List Nat), b = 10 ∨ b = 13 →
        breadLoop 44 34 true sawQ col fs buf bds line (b :: rest) =
          breadLoop 44 34 true sawQ (if b = 10 then 1 else col + 1) fs (buf ++ [b]) bds
            (if b = 10 then line + 1 else line) rest := by
  refine ⟨?_, ?_⟩
  · simp [bRead, breadLoop, buildRecord, sliceBy, bytes]
  · intro sawQ col fs buf bds line b rest hb
    exact breadLoop_quoted_newline sawQ col fs buf bds line b rest hb

/-- C1 (witness): the step property applied to an LF inside quotes. -/
theorem c1_witness :
    breadLoop 44 34 true false 1 0 [] [] 1 (10 :: [34, 10]) =
      breadLoop 44 34 true false (if (10 : Nat) = 10 then 1 else 1 + 1) 0 ([] ++ [10]) []
        (if (10 : Nat) = 10 then 1 + 1 else 1) [34, 10] :=
  c1_multiline_quoted_field.2 false 1 0 [] [] 1 10 [34, 10] (Or.inl rfl)

/-- C5: the input `a,b,c` with no trailing newline yields the record
`["a","b","c"]` on the first call (the state becoming finished with the
source exhausted), and any finished reader — hence the immediately
following call — returns `io.EOF` with no record and without consuming
input. -/
theorem c5_final_record_then_eof :
    bRead 44 34 ⟨bytes "a,b,c", false, 1⟩ =
      (.record [bytes "a", bytes "b", bytes "c"], ⟨[], true, 1⟩) ∧
    ∀ (c q : Nat) (st : BState), st.finished = true → bRead c q st = (.eofR, st) := by
  refine ⟨?_, ?_⟩
  · simp [bRead, breadLoop, buildRecord, sliceBy, bytes]
  · intro c q st h
    exact bRead_finished c q st h

/-- C5 (witness): the second call after reading the unterminated final
record returns `io.EOF`. -/
theorem c5_witness :
    bRead 44 34 ⟨[], true, 1⟩ = (.eofR, ⟨[], true, 1⟩) :=
  c5_final_record_then_eof.2 44 34 ⟨[], true, 1⟩ rfl

/-- C7: a quote byte encountered outside quotes while the current field is
not empty (or directly after a closed quoted field) makes the read loop
return a `BareQuote` `ParseError` carrying the current line and the current
1-based column; concretely, `ab"c\n` fails with `BareQuote` at line 1,
column 3, and an unterminated quoted field `"abc` fails with
`UnterminatedQuote` at line 1, column 5 — both structural errors carry
their line/column location. -/
theorem c7_bare_quote_error :
    (∀ (sawQ : Bool) (col fs : Nat) (buf : List Nat) (bds : List (Nat × Nat))
      (line : Nat) (rest : List Nat), ¬ (buf.length = fs ∧ sawQ = false) →
        breadLoop 44 34 false sawQ col fs buf bds line (34 :: rest) =
          (.parseErr line col .bareQuote, ⟨rest, false, line⟩)) ∧
    bRead 44 34 ⟨bytes "ab\"c\n", false, 1⟩ =
      (.parseErr 1 3 .bareQuote, ⟨bytes "c\n", false, 1⟩) ∧
    bRead 44 34 ⟨bytes "\"abc", false, 1⟩ =
      (.parseErr 1 5 .unterminatedQuote, ⟨[], true, 1⟩) := by
  refine ⟨?_, ?_, ?_⟩
  · intro sawQ col fs buf bds line rest h
    simp [breadLoop, h]
  · simp [bRead, breadLoop, buildRecord, sliceBy, bytes]
  · simp [bRead, breadLoop, buildRecord, sliceBy, bytes]

/-- C7 (witness): the bare-quote step applied in the middle of the unquoted
field `ab`. -/
theorem c7_witness :
    breadLoop 44 34 false false 3 0 [97, 98] [] 1 (34 :: [99, 10]) =
      (.parseErr 1 3 .bareQuote, ⟨[99, 10], false, 1⟩) :=
  c7_bare_quote_error.1 false 3 0 [97, 98] [] 1 [99, 10] (by simp)

/-- C9: a finished reader returns `io.EOF` with its state (and remaining
input) unchanged on every subsequent call, and whenever a call returns
`io.EOF` or an `UnterminatedQuote` parse error the resulting state is
finished — so the instance is permanently exhausted afterwards. -/
theorem c9_exhaustion_invariant :
    (∀ (c q : Nat) (st : BState), st.finished = true → bRead c q st = (.eofR, st)) ∧
    (∀ (c q : Nat) (st : BState) (r : BOutcome) (st2 : BState),
      bRead c q st = (r, st2) →
      (r = .eofR ∨ ∃ l2 c2, r = .parseErr l2 c2 .unterminatedQuote) →
      st2.finished = true) := by
  refine ⟨fun c q st h => bRead_finished c q st h, ?_⟩
  intro c q st r st2 hread hr
  by_cases hf : st.finished = true
  · rw [bRead_finished c q st hf] at hread
    cases hread
    exact hf
  · have hb : breadLoop (if c = 0 then 44 else c) (if q = 0 then 34 else q)
        false false 1 0 [] [] st.line st.input = (r, st2) := by
      simpa [bRead, hf] using hread
    have := breadLoop_finish (if c = 0 then 44 else c) (if q = 0 then 34 else q)
      false false 1 0 [] [] st.line st.input
    rw [hb] at this
    exact this hr

/-- C9 (witness): after the `UnterminatedQuote` error on input `"x` the
resulting state is finished. -/
theorem c9_witness : (BState.mk [] true 1).finished = true :=
  c9_exhaustion_invariant.2 44 34 ⟨bytes "\"x", false, 1⟩
    (.parseErr 1 3 .unterminatedQuote) ⟨[], true, 1⟩
    (by simp [bRead, breadLoop, buildRecord, sliceBy, bytes])
    (Or.inr ⟨1, 3, rfl⟩)

/-- C2: `csvc.go`'s `Read` replaces the fetched line by its
`strings.TrimSpace` before parsing, so for input ` a,b\n` the leading space
of the first field is lost — while the streaming parser preserves it
verbatim.  The code contradicts the documented no-trimming guarantee. -/
theorem c2_trimming_divergence :
    (csvcRead 44 35 0 0 (bytes " a,b\n")).1 = .record [bytes "a", bytes "b"] ∧
    (bRead 44 34 ⟨bytes " a,b\n", false, 1⟩).1 = .record [bytes " a", bytes "b"] := by
  refine ⟨?_, ?_⟩
  · simp [csvcRead, csvcParse, cFindBounds, cDecodeField, trimSpace, isSpaceB,
      stripTrailCR, replacePairs, sliceBy, bytes]
  · simp [bRead, breadLoop, buildRecord, sliceBy, bytes]

/-- C6: for `,a,,b,\n`, `csvc.go`'s `Read` appends the empty last field
twice (once by the unconditional last-field step, once by the
trailing-delimiter step) and returns six fields, while the state-machine
reader returns the five fields of the claim. -/
theorem c6_trailing_delimiter_divergence :
    (csvcRead 44 35 0 0 (bytes ",a,,b,\n")).1 =
      .record [[], bytes "a", [], bytes "b", [], []] ∧
    dRead 44 0 (bytes ",a,,b,\n") =
      (some [[], bytes "a", [], bytes "b", []], 5, []) := by
  refine ⟨?_, ?_⟩
  · simp [csvcRead, csvcParse, cFindBounds, cDecodeField, trimSpace, isSpaceB,
      stripTrailCR, replacePairs, sliceBy, bytes]
  · simp [dRead, dReadRecord, dAccum, dTrim, dFastBounds, scanQ, sliceBy, bytes]

/-- C8 (counterexample): under `csvc.go`'s default `FieldsPerRecord = 0`
the first record's field count is auto-detected and then enforced: reading
`a,b\n1,2,3\n` yields the first record and sets the count to 2, and the
second call returns `ErrFieldCount` instead of the record. -/
theorem c8_default_policy_counterexample :
    csvcRead 44 35 0 0 (bytes "a,b\n1,2,3\n") =
      (.record [bytes "a", bytes "b"], 2, 1, bytes "1,2,3\n") ∧
    (csvcRead 44 35 2 1 (bytes "1,2,3\n")).1 = .fieldCountErr := by
  refine ⟨?_, ?_⟩
  · simp [csvcRead, csvcParse, cFindBounds, cDecodeField, trimSpace, isSpaceB,
      stripTrailCR, replacePairs, sliceBy, bytes]
  · simp [csvcRead, csvcParse, cFindBounds, cDecodeField, trimSpace, isSpaceB,
      stripTrailCR, replacePairs, sliceBy, bytes]

/-- C8 (amended): in the state-machine reader the auto-detected first
count is never enforced: reading `a,b\n1,2,3\n` remembers `FieldCount = 2`
from the first record, then returns the three-field second record
successfully with no field-count error; the remembered count is used only
to pad short records (a one-field record under `FieldCount = 2` is padded
with one empty field). -/
theorem c8_autodetect_without_enforcement :
    dRead 44 0 (bytes "a,b\n1,2,3\n") =
      (some [bytes "a", bytes "b"], 2, bytes "1,2,3\n") ∧
    dRead 44 2 (bytes "1,2,3\n") =
      (some [bytes "1", bytes "2", bytes "3"], 2, []) ∧
    dRead 44 2 (bytes "x\n") = (some [bytes "x", []], 2, []) := by
  refine ⟨?_, ?_, ?_⟩ <;>
    simp [dRead, dReadRecord, dAccum, dTrim, dFastBounds, scanQ, sliceBy, bytes]

/-! ## Helper lemmas about line splitting and trimming -/

/-- `takeWhile` over a newline-free prefix stops exactly at the LF. -/
theorem takeWhile_append_nl (ws rest : List Nat) (h : (10 : Nat) ∉ ws) :
    (ws ++ 10 :: rest).takeWhile (fun c => !(c == 10)) = ws := by
  induction ws with
  | nil => simp [List.takeWhile]
  | cons a t ih =>
    have ha : a ≠ 10 := fun hp => h (hp ▸ List.mem_cons_self a t)
    have ht : (10 : Nat) ∉ t := fun hp => h (List.mem_cons_of_mem a hp)
    have hb : (a == 10) = false := by simp [ha]
    simp [List.takeWhile, hb, ih ht]

/-- `dropWhile` over a newline-free prefix reaches exactly the LF. -/
theorem dropWhile_append_nl (ws rest : List Nat) (h : (10 : Nat) ∉ ws) :
    (ws ++ 10 :: rest).dropWhile (fun c => !(c == 10)) = 10 :: rest := by
  induction ws with
  | nil => simp [List.dropWhile]
  | cons a t ih =>
    have ha : a ≠ 10 := fun hp => h (hp ▸ List.mem_cons_self a t)
    have ht : (10 : Nat) ∉ t := fun hp => h (List.mem_cons_of_mem a hp)
    have hb : (a == 10) = false := by simp [ha]
    simp [List.dropWhile, hb, ih ht]

/-- `takeWhile` keeps the whole list if it is newline-free. -/
theorem takeWhile_no_nl (ws : List Nat) (h : (10 : Nat) ∉ ws) :
    ws.takeWhile (fun c => !(c == 10)) = ws := by
  induction ws with
  | nil => simp
  | cons a t ih =>
    have ha : a ≠ 10 := fun hp => h (hp ▸ List.mem_cons_self a t)
    have ht : (10 : Nat) ∉ t := fun hp => h (List.mem_cons_of_mem a hp)
    have hb : (a == 10) = false := by simp [ha]
    simp [List.takeWhile, hb, ih ht]

/-- `dropWhile` consumes the whole list if it is newline-free. -/
theorem dropWhile_no_nl (ws : List Nat) (h : (10 : Nat) ∉ ws) :
    ws.dropWhile (fun c => !(c == 10)) = [] := by
  induction ws with
  | nil => simp
  | cons a t ih =>
    have ha : a ≠ 10 := fun hp => h (hp ▸ List.mem_cons_self a t)
    have ht : (10 : Nat) ∉ t := fun hp => h (List.mem_cons_of_mem a hp)
    have hb : (a == 10) = false := by simp [ha]
    simp [List.dropWhile, hb, ih ht]

/-- `strings.TrimSpace` of an all-whitespace line is empty. -/
theorem trimSpace_all_space (l : List Nat) (h : ∀ c ∈ l, isSpaceB c = true) :
    trimSpace l = [] := by
  have hd : l.dropWhile isSpaceB = [] := List.dropWhile_eq_nil_iff.mpr h
  simp [trimSpace, hd]

/-- `stripTrailCR` keeps every remaining byte a member of the line. -/
theorem stripTrailCR_subset (l : List Nat) (c : Nat) (hc : c ∈ stripTrailCR l) :
    c ∈ l := by
  unfold stripTrailCR at hc
  split at hc
  · exact List.dropLast_subset _ hc
  · exact hc

/-- C10: a physical line that is empty or consists only of whitespace never
produces a record in `csvc.go`'s `Read`: a whitespace-only line followed by
LF is skipped (the call equals the call on the rest of the input with the
line counter advanced), a whitespace-only final line without LF yields
`io.EOF`, and concretely ` \t\na,b\n` parses to `["a","b"]`. -/
theorem c10_blank_lines_skipped :
    (∀ (fpr : Int) (nl : Nat) (ws rest : List Nat),
      (∀ c ∈ ws, isSpaceB c = true) → (10 : Nat) ∉ ws →
      csvcRead 44 35 fpr nl (ws ++ 10 :: rest) = csvcRead 44 35 fpr (nl + 1) rest) ∧
    (∀ (fpr : Int) (nl : Nat) (ws : List Nat), ws ≠ [] →
      (∀ c ∈ ws, isSpaceB c = true) → (10 : Nat) ∉ ws →
      (csvcRead 44 35 fpr nl ws).1 = .eofR) ∧
    (csvcRead 44 35 0 0 (bytes " \t\na,b\n")).1 = .record [bytes "a", bytes "b"] := by
  refine ⟨?_, ?_, ?_⟩
  · intro fpr nl ws rest hsp h10
    have htrim : trimSpace (stripTrailCR ws) = [] :=
      trimSpace_all_space _ (fun c hc => hsp c (stripTrailCR_subset ws c hc))
    cases ws with
    | nil =>
      simp [csvcRead, trimSpace, stripTrailCR, List.takeWhile, List.dropWhile]
    | cons a t =>
      have hpre := takeWhile_append_nl (a :: t) rest h10
      have hpost := dropWhile_append_nl (a :: t) rest h10
      simp only [List.cons_append] at hpre hpost
      simp [csvcRead, hpre, hpost, htrim]
  · intro fpr nl ws hne hsp h10
    have htrim : trimSpace ws = [] := trimSpace_all_space _ hsp
    cases ws with
    | nil => exact absurd rfl hne
    | cons a t =>
      have hpre := takeWhile_no_nl (a :: t) h10
      have hpost := dropWhile_no_nl (a :: t) h10
      simp [csvcRead, hpre, hpost, htrim]
  · simp [csvcRead, csvcParse, cFindBounds, cDecodeField, trimSpace, isSpaceB,
      stripTrailCR, replacePairs, sliceBy, bytes]



/-! ## Helper lemmas for line-ending equivalence -/

/-- At the record boundary (empty body), the three terminators LF, CRLF and
bare CR give the same record fields (or, inside quotes, all fail). -/
theorem bThreeTermBase (iq sawQ : Bool) (col fs : Nat) (buf : List Nat)
    (bds : List (Nat × Nat)) (line : Nat) :
    recOf (breadLoop 44 34 iq sawQ col fs buf bds line [13, 10]).1 =
      recOf (breadLoop 44 34 iq sawQ col fs buf bds line [10]).1 ∧
    recOf (breadLoop 44 34 iq sawQ col fs buf bds line [13]).1 =
      recOf (breadLoop 44 34 iq sawQ col fs buf bds line [10]).1 := by
  cases iq <;> simp [breadLoop, recOf]

/-- Appending LF, CRLF or bare CR to a newline-free body yields the same
record fields from any loop state (and identical failures). -/
theorem bThreeTerm :
    ∀ (n : Nat) (body : List Nat), body.length ≤ n →
    (∀ b ∈ body, b ≠ 10 ∧ b ≠ 13) →
    ∀ (iq sawQ : Bool) (col fs : Nat) (buf : List Nat) (bds : List (Nat × Nat)) (line : Nat),
      recOf (breadLoop 44 34 iq sawQ col fs buf bds line (body ++ [13, 10])).1 =
        recOf (breadLoop 44 34 iq sawQ col fs buf bds line (body ++ [10])).1 ∧
      recOf (breadLoop 44 34 iq sawQ col fs buf bds line (body ++ [13])).1 =
        recOf (breadLoop 44 34 iq sawQ col fs buf bds line (body ++ [10])).1 := by
  intro n
  induction n with
  | zero =>
    intro body hlen _ iq sawQ col fs buf bds line
    have hnil : body = [] := List.length_eq_zero.mp (Nat.le_zero.mp hlen)
    subst hnil
    simpa using bThreeTermBase iq sawQ col fs buf bds line
  | succ n ihn =>
    intro body hlen hmem iq sawQ col fs buf bds line
    cases body with
    | nil => simpa using bThreeTermBase iq sawQ col fs buf bds line
    | cons b body2 =>
      have hb := hmem b (List.mem_cons_self b body2)
      have hmem2 : ∀ x ∈ body2, x ≠ 10 ∧ x ≠ 13 :=
        fun x hx => hmem x (List.mem_cons_of_mem b hx)
      have hlen2 : body2.length ≤ n := by
        simp only [List.length_cons] at hlen
        omega
      simp only [List.cons_append]
      cases iq with
      | true =>
        by_cases hbq : b = 34
        · subst hbq
          cases body2 with
          | nil => simp [breadLoop, recOf]
          | cons b2 body3 =>
            have hmem3 : ∀ x ∈ body3, x ≠ 10 ∧ x ≠ 13 :=
              fun x hx => hmem2 x (List.mem_cons_of_mem b2 hx)
            have hlen3 : body3.length ≤ n := by
              simp only [List.length_cons] at hlen2
              omega
            simp only [List.cons_append]
            by_cases hb2 : b2 = 34
            · subst hb2
              have hstep : ∀ t, breadLoop 44 34 true sawQ col fs buf bds line
                  (34 :: 34 :: (body3 ++ t)) =
                  breadLoop 44 34 true sawQ (col + 2) fs (buf ++ [34]) bds line
                    (body3 ++ t) := by
                intro t
                simp [breadLoop]
              simp only [hstep]
              exact ihn body3 hlen3 hmem3 true sawQ (col + 2) fs (buf ++ [34]) bds line
            · have hstep : ∀ t, breadLoop 44 34 true sawQ col fs buf bds line
                  (34 :: b2 :: (body3 ++ t)) =
                  breadLoop 44 34 false sawQ (col + 1) fs buf bds line
                    (b2 :: (body3 ++ t)) := by
                intro t
                simp [breadLoop, hb2]
              simp only [hstep]
              have := ihn (b2 :: body3) hlen2 hmem2 false sawQ (col + 1) fs buf bds line
              simpa using this
        · have hstep : ∀ t, breadLoop 44 34 true sawQ col fs buf bds line
              (b :: (body2 ++ t)) =
              breadLoop 44 34 true sawQ (col + 1) fs (buf ++ [b]) bds line
                (body2 ++ t) := by
            intro t
            simp [breadLoop, hbq, hb.1]
          simp only [hstep]
          exact ihn body2 hlen2 hmem2 true sawQ (col + 1) fs (buf ++ [b]) bds line
      | false =>
        by_cases hbc : b = 44
        · subst hbc
          have hstep : ∀ t, breadLoop 44 34 false sawQ col fs buf bds line
              (44 :: (body2 ++ t)) =
              breadLoop 44 34 false false (col + 1) buf.length buf
                (bds ++ [(fs, buf.length)]) line (body2 ++ t) := by
            intro t
            simp [breadLoop]
          simp only [hstep]
          exact ihn body2 hlen2 hmem2 false false (col + 1) buf.length buf
            (bds ++ [(fs, buf.length)]) line
        · by_cases hbq : b = 34
          · subst hbq
            by_cases hcond : buf.length = fs ∧ sawQ = false
            · have hstep : ∀ t, breadLoop 44 34 false sawQ col fs buf bds line
                  (34 :: (body2 ++ t)) =
                  breadLoop 44 34 true true (col + 1) fs buf bds line (body2 ++ t) := by
                intro t
                simp [breadLoop, hcond]
              simp only [hstep]
              exact ihn body2 hlen2 hmem2 true true (col + 1) fs buf bds line
            · have hstep : ∀ t, breadLoop 44 34 false sawQ col fs buf bds line
                  (34 :: (body2 ++ t)) =
                  (.parseErr line col .bareQuote, ⟨body2 ++ t, false, line⟩) := by
                intro t
                simp [breadLoop, hcond]
              simp only [hstep]
              simp [recOf]
          · have hstep : ∀ t, breadLoop 44 34 false sawQ col fs buf bds line
                (b :: (body2 ++ t)) =
                breadLoop 44 34 false sawQ (col + 1) fs (buf ++ [b]) bds line
                  (body2 ++ t) := by
              intro t
              simp [breadLoop, hbc, hb.1, hb.2, hbq]
            simp only [hstep]
            exact ihn body2 hlen2 hmem2 false sawQ (col + 1) fs (buf ++ [b]) bds line

/-- C4: a logical record with no newline-class bytes in its body parses to
the same field list whether it is terminated by LF, by CRLF, or by a bare
CR (and any failure is the same failure); in particular a bare CR ends the
record — `a,b\r` already yields `["a","b"]` with the CR not part of the
last field and the line counter advanced. -/
theorem c4_terminator_equivalence :
    (∀ (body : List Nat), (∀ b ∈ body, b ≠ 10 ∧ b ≠ 13) → ∀ line : Nat,
      recOf (bRead 44 34 ⟨body ++ [13, 10], false, line⟩).1 =
        recOf (bRead 44 34 ⟨body ++ [10], false, line⟩).1 ∧
      recOf (bRead 44 34 ⟨body ++ [13], false, line⟩).1 =
        recOf (bRead 44 34 ⟨body ++ [10], false, line⟩).1) ∧
    bRead 44 34 ⟨bytes "a,b\r", false, 1⟩ =
      (.record [bytes "a", bytes "b"], ⟨[], false, 2⟩) := by
  refine ⟨?_, ?_⟩
  · intro body hmem line
    have := bThreeTerm body.length body le_rfl hmem false false 1 0 [] [] line
    simpa [bRead] using this
  · simp [bRead, breadLoop, buildRecord, sliceBy, bytes]

/-- C4 (witness): the terminator equivalence applied to the body `a,b`. -/
theorem c4_witness :
    recOf (bRead 44 34 ⟨bytes "a,b" ++ [13, 10], false, 1⟩).1 =
      recOf (bRead 44 34 ⟨bytes "a,b" ++ [10], false, 1⟩).1 ∧
    recOf (bRead 44 34 ⟨bytes "a,b" ++ [13], false, 1⟩).1 =
      recOf (bRead 44 34 ⟨bytes "a,b" ++ [10], false, 1⟩).1 :=
  c4_terminator_equivalence.1 (bytes "a,b") (by decide) 1


/-! ## Helper lemmas for escaped-quote collapsing -/

/-- `intercalate` over the empty list of segments. -/
theorem intercalate_nil_seg (sep : List Nat) : List.intercalate sep ([] : List (List Nat)) = [] := by
  simp [List.intercalate]

/-- `intercalate` over a single segment. -/
theorem intercalate_one_seg (sep : List Nat) (s : List Nat) :
    List.intercalate sep [s] = s := by
  simp [List.intercalate]

/-- `intercalate` peels one segment and one separator. -/
theorem intercalate_cons_seg (sep : List Nat) (s s2 : List Nat) (tl : List (List Nat)) :
    List.intercalate sep (s :: s2 :: tl) = s ++ sep ++ List.intercalate sep (s2 :: tl) := by
  simp [List.intercalate, List.intersperse]

/-- Inside a quoted field, a run of quote-free bytes is appended to the
data buffer verbatim (newlines only move the line/column counters). -/
theorem bQuotedRun (s : List Nat) :
    (34 : Nat) ∉ s →
    ∀ (sawQ : Bool) (col fs : Nat) (buf : List Nat) (bds : List (Nat × Nat))
      (line : Nat) (rest : List Nat),
    ∃ col2 line2,
      breadLoop 44 34 true sawQ col fs buf bds line (s ++ rest) =
        breadLoop 44 34 true sawQ col2 fs (buf ++ s) bds line2 rest := by
  induction s with
  | nil =>
    intro _ sawQ col fs buf bds line rest
    exact ⟨col, line, by simp⟩
  | cons c t ih =>
    intro hs sawQ col fs buf bds line rest
    have hc : ¬ c = 34 := fun hp => hs (List.mem_cons.mpr (Or.inl hp.symm))
    have ht : (34 : Nat) ∉ t := fun hp => hs (List.mem_cons_of_mem c hp)
    by_cases h10 : c = 10
    · subst h10
      obtain ⟨col2, line2, heq⟩ := ih ht sawQ 1 fs (buf ++ [10]) bds (line + 1) rest
      refine ⟨col2, line2, ?_⟩
      have hstep : breadLoop 44 34 true sawQ col fs buf bds line ((10 :: t) ++ rest) =
          breadLoop 44 34 true sawQ 1 fs (buf ++ [10]) bds (line + 1) (t ++ rest) := by
        simp [breadLoop]
      rw [hstep, heq]
      simp
    · obtain ⟨col2, line2, heq⟩ := ih ht sawQ (col + 1) fs (buf ++ [c]) bds line rest
      refine ⟨col2, line2, ?_⟩
      have hstep : breadLoop 44 34 true sawQ col fs buf bds line ((c :: t) ++ rest) =
          breadLoop 44 34 true sawQ (col + 1) fs (buf ++ [c]) bds line (t ++ rest) := by
        simp [breadLoop, hc, h10]
      rw [hstep, heq]
      simp

/-- Processing the escaped body of a quoted field: each doubled quote
collapses to a single quote in the data buffer, and the closing quote plus
LF terminate the record whose last field is the collapsed text. -/
theorem bCollapse (segs : List (List Nat)) :
    (∀ s ∈ segs, (34 : Nat) ∉ s) →
    ∀ (sawQ : Bool) (col fs : Nat) (buf : List Nat) (bds : List (Nat × Nat)) (line : Nat),
    ∃ line2,
      breadLoop 44 34 true sawQ col fs buf bds line
          (List.intercalate [34, 34] segs ++ [34, 10]) =
        (.record (buildRecord (buf ++ List.intercalate [34] segs)
            (bds ++ [(fs, (buf ++ List.intercalate [34] segs).length)])),
          ⟨[], false, line2⟩) := by
  induction segs with
  | nil =>
    intro _ sawQ col fs buf bds line
    refine ⟨line + 1, ?_⟩
    simp [intercalate_nil_seg, breadLoop]
  | cons s segs2 ih =>
    intro hseg sawQ col fs buf bds line
    have hs : (34 : Nat) ∉ s := hseg s (List.mem_cons_self s segs2)
    cases segs2 with
    | nil =>
      obtain ⟨col2, line2, hrun⟩ := bQuotedRun s hs sawQ col fs buf bds line [34, 10]
      refine ⟨line2 + 1, ?_⟩
      rw [intercalate_one_seg, intercalate_one_seg, hrun]
      simp [breadLoop]
    | cons s2 tl =>
      have hseg2 : ∀ x ∈ s2 :: tl, (34 : Nat) ∉ x :=
        fun x hx => hseg x (List.mem_cons_of_mem s hx)
      obtain ⟨col2, line2, hrun⟩ := bQuotedRun s hs sawQ col fs buf bds line
        (34 :: 34 :: (List.intercalate [34, 34] (s2 :: tl) ++ [34, 10]))
      obtain ⟨line3, hrest⟩ := ih hseg2 sawQ (col2 + 2) fs ((buf ++ s) ++ [34]) bds line2
      refine ⟨line3, ?_⟩
      have hshape : List.intercalate [34, 34] (s :: s2 :: tl) ++ [34, 10] =
          s ++ (34 :: 34 :: (List.intercalate [34, 34] (s2 :: tl) ++ [34, 10])) := by
        rw [intercalate_cons_seg]
        simp
      rw [hshape, hrun]
      have hesc : breadLoop 44 34 true sawQ col2 fs (buf ++ s) bds line2
          (34 :: 34 :: (List.intercalate [34, 34] (s2 :: tl) ++ [34, 10])) =
          breadLoop 44 34 true sawQ (col2 + 2) fs ((buf ++ s) ++ [34]) bds line2
            (List.intercalate [34, 34] (s2 :: tl) ++ [34, 10]) := by
        simp [breadLoop]
      rw [hesc, hrest, intercalate_cons_seg]
      simp

/-- C3: doubled quotes inside a quoted field always collapse to a single
quote: concretely `"She said ""Hello"" and ""Goodbye"""` parses to the
single field `She said "Hello" and "Goodbye"`, and in general a quoted
field whose body consists of quote-free segments joined by doubled quotes
parses to the single field made of those segments joined by single
quotes — so no doubled escape sequence of the input survives undecoded. -/
theorem c3_escaped_quotes_collapse :
    (bRead 44 34 ⟨bytes "\"She said \"\"Hello\"\" and \"\"Goodbye\"\"\"\n", false, 1⟩).1 =
      .record [bytes "She said \"Hello\" and \"Goodbye\""] ∧
    ∀ segs : List (List Nat), (∀ s ∈ segs, (34 : Nat) ∉ s) → ∀ line : Nat,
      ∃ line2,
        bRead 44 34 ⟨34 :: (List.intercalate [34, 34] segs ++ [34, 10]), false, line⟩ =
          (.record [List.intercalate [34] segs], ⟨[], false, line2⟩) := by
  refine ⟨?_, ?_⟩
  · simp [bRead, breadLoop, buildRecord, sliceBy, bytes]
  · intro segs hseg line
    obtain ⟨line2, hcol⟩ := bCollapse segs hseg true 2 0 [] [] line
    refine ⟨line2, ?_⟩
    have hopen : bRead 44 34 ⟨34 :: (List.intercalate [34, 34] segs ++ [34, 10]), false, line⟩ =
        breadLoop 44 34 true true 2 0 [] [] line
          (List.intercalate [34, 34] segs ++ [34, 10]) := by
      simp [bRead, breadLoop]
    rw [hopen, hcol]
    simp [buildRecord, sliceBy]

/-- C3 (witness): the general collapsing applied to the two segments `a`
and `b`, producing the single field with one literal quote between them. -/
theorem c3_witness :
    ∃ line2,
      bRead 44 34 ⟨34 :: (List.intercalate [34, 34] [[97], [98]] ++ [34, 10]), false, 1⟩ =
        (.record [List.intercalate [34] [[97], [98]]], ⟨[], false, line2⟩) :=
  c3_escaped_quotes_collapse.2 [[97], [98]] (by decide) 1


/-- C10 (witness): the skip equation applied to the whitespace line
consisting of a space and a tab. -/
theorem c10_witness :
    csvcRead 44 35 0 0 ([32, 9] ++ 10 :: bytes "a,b\n") =
      csvcRead 44 35 0 (0 + 1) (bytes "a,b\n") :=
  c10_blank_lines_skipped.1 0 0 [32, 9] (bytes "a,b\n") (by decide) (by decide)

end Csvc
